import Mathlib

/-!
Verification of the ingestion → extraction → deduplication/persistence
pipeline of the freelance-request harvesting service.

The Python modules are shallowly embedded:

* `worker/jobs/analyzer.py` — `split_into_batches`, `parse_gemini_response`,
  `attach_metadata`, `GeminiAnalyzer.analyze_batch`;
* `worker/jobs/parser.py` — `filter_messages`;
* `services/request_service.py` — `compute_hash` callers, `save_requests`,
  `cleanup_old_requests`, `create_parse_log`, `finish_parse_log`;
* `worker/scheduler.py` — `parse_and_analyze_job`.

Conventions of the embedding:

* Python dictionaries produced by `dict.get` access are structures with
  `Option` fields (`none` = key absent or `None`);
* Python strings are `String`, except in the response-fence stripping of
  the analyzer, where slicing and `str.strip` semantics matter and we work
  on `List Char` directly;
* `datetime` values are integers counted in days (`timedelta(days=d)`
  subtracts `d`); all comparisons in the code are linear, so the unit is
  irrelevant;
* `json.loads` and `hashlib.sha256` are external library calls and enter
  as explicit function parameters (`decode`, `hash`); nothing proved below
  depends on their internals;
* the database session is a `List FreelanceRequest` (the table rows in
  insertion order); `session.execute(select ...)` runs under SQLAlchemy
  autoflush, so a duplicate check inside `save_requests` sees rows added
  earlier in the same call.
-/

namespace FreelanceBot

/-! ## Data model -/

/-- A message record as produced by `ChatParser.parse_chat` (a Python dict;
fields read with `.get` are `Option`s, `message_id` is read with `[]` and
hence total). -/
structure Msg where
  message_id : Int
  text : Option String
  message_date : Option Int
  chat_id : Option String
  category : Option String
  is_bot : Option Bool
deriving DecidableEq

/-- An extracted-request dict as it flows from `parse_gemini_response`
through `attach_metadata` into `RequestService.save_requests`. Every field
the code reads with `.get` is an `Option`. -/
structure RD where
  title : Option String
  description : Option String
  budget : Option String
  skills : Option (List String)
  contact : Option String
  urgency : Option String
  source_message_id : Option Int
  source_chat : Option String
  message_date : Option Int
  category : Option String
  message_text : Option String
deriving DecidableEq

/-- A row of the `freelance_requests` table (`core/models.py`), with the
fields `save_requests` writes. -/
structure FreelanceRequest where
  category : String
  title : String
  description : String
  budget : String
  skills : List String
  contact : Option String
  urgency : String
  source_chat : String
  source_message_id : Int
  message_date : Int
  message_text_hash : String
  is_active : Bool
deriving DecidableEq

/-! ## Batcher: `split_into_batches` (worker/jobs/analyzer.py) -/

/-- Ceiling division on naturals, the value of `math.ceil(n / b)` for
`b > 0`. -/
def ceilDiv (n b : Nat) : Nat := (n + b - 1) / b

/-- `split_into_batches(items, batch_size)`: raises `ValueError` when
`batch_size <= 0`, returns `[]` on empty input, and otherwise the slices
`items[i*batch_size:(i+1)*batch_size]` for `i < ceil(len(items)/batch_size)`.
-/
def split_into_batches {α : Type} (items : List α) (batch_size : Int) :
    Except String (List (List α)) :=
  if batch_size ≤ 0 then
    .error "batch_size must be positive"
  else if items.isEmpty then
    .ok []
  else
    let b := batch_size.toNat
    .ok ((List.range (ceilDiv items.length b)).map
      (fun i => (items.drop (i * b)).take b))

theorem ceilDiv_zero (b : Nat) (hb : 0 < b) : ceilDiv 0 b = 0 := by
  unfold ceilDiv
  rw [Nat.zero_add]
  exact Nat.div_eq_of_lt (by omega)

theorem ceilDiv_succ (n b : Nat) (hb : 0 < b) (hn : 0 < n) :
    ceilDiv n b = ceilDiv (n - b) b + 1 := by
  unfold ceilDiv
  rcases Nat.le_total n b with h | h
  · have h1 : n - b = 0 := by omega
    have h2 : (n + b - 1) / b = 1 := Nat.div_eq_of_lt_le (by omega) (by omega)
    have h3 : (0 + b - 1) / b = 0 := Nat.div_eq_of_lt (by omega)
    rw [h1, h2, h3]
  · have h1 : n + b - 1 = (n - b + b - 1) + b := by omega
    rw [h1, Nat.add_div_right _ hb]

/-- The concatenation of the slices reproduces the input. -/
theorem chunks_join {α : Type} (b : Nat) (hb : 0 < b) :
    ∀ (n : Nat) (l : List α), l.length ≤ n →
      ((List.range (ceilDiv l.length b)).map
        (fun i => (l.drop (i * b)).take b)).flatten = l := by
  intro n
  induction n with
  | zero =>
    intro l hl
    have : l = [] := List.eq_nil_of_length_eq_zero (by omega)
    subst this
    simp [ceilDiv_zero b hb]
  | succ n ih =>
    intro l hl
    by_cases h0 : l = []
    · subst h0
      simp [ceilDiv_zero b hb]
    · have hlen : 0 < l.length := List.length_pos.mpr h0
      rw [ceilDiv_succ _ b hb hlen, List.range_succ_eq_map]
      simp only [List.map_cons, List.map_map, List.flatten_cons]
      have htail :
          (List.map ((fun i => (l.drop (i * b)).take b) ∘ Nat.succ)
            (List.range (ceilDiv (l.length - b) b))) =
          (List.map (fun i => ((l.drop b).drop (i * b)).take b)
            (List.range (ceilDiv (l.length - b) b))) := by
        apply List.map_congr_left
        intro i _
        simp only [Function.comp_apply]
        simp [List.drop_drop, Nat.succ_mul, Nat.add_comm]
      rw [htail]
      have hrec := ih (l.drop b) (by simp; omega)
      have hdl : (l.drop b).length = l.length - b := by simp
      rw [hdl] at hrec
      rw [hrec]
      simp [List.take_append_drop]

/-- C1: `split_into_batches` rejects every non-positive batch size, and for
every positive batch size returns exactly `ceil(N / B)` batches, each of at
most `B` items, whose in-order concatenation is the input; the empty input
yields an empty list of batches. -/
theorem split_into_batches_correct {α : Type} (items : List α) (B : Int) :
    (B ≤ 0 → split_into_batches items B = .error "batch_size must be positive")
    ∧ (0 < B → ∃ bs : List (List α),
        split_into_batches items B = .ok bs
        ∧ bs.length = ceilDiv items.length B.toNat
        ∧ (∀ batch ∈ bs, batch.length ≤ B.toNat)
        ∧ bs.flatten = items
        ∧ (items = [] → bs = [])) := by
  constructor
  · intro hB
    simp [split_into_batches, hB]
  · intro hB
    have hB' : ¬ B ≤ 0 := by omega
    have hb : 0 < B.toNat := by omega
    by_cases h0 : items = []
    · subst h0
      refine ⟨[], ?_, ?_, ?_, ?_, ?_⟩ <;>
        simp [split_into_batches, hB', ceilDiv_zero _ hb]
    · have h1 : items.isEmpty = false := by
        cases items <;> simp_all
      refine ⟨(List.range (ceilDiv items.length B.toNat)).map
        (fun i => (items.drop (i * B.toNat)).take B.toNat), ?_, ?_, ?_, ?_, ?_⟩
      · simp [split_into_batches, hB', h1]
      · simp
      · intro batch hbatch
        simp only [List.mem_map, List.mem_range] at hbatch
        obtain ⟨i, _, rfl⟩ := hbatch
        simp [List.length_take]
      · exact chunks_join B.toNat hb items.length items le_rfl
      · intro h
        exact absurd h h0

/-- Witness for C1 at a concrete input: five items, batch size two. -/
theorem split_into_batches_correct_witness :
    (0 : Int) < 2
    ∧ ∃ bs : List (List Nat),
        split_into_batches [10, 20, 30, 40, 50] 2 = .ok bs
        ∧ bs.length = ceilDiv 5 2
        ∧ (∀ batch ∈ bs, batch.length ≤ (2 : Int).toNat)
        ∧ bs.flatten = [10, 20, 30, 40, 50]
        ∧ ([10, 20, 30, 40, 50] = ([] : List Nat) → bs = []) :=
  ⟨by decide, (split_into_batches_correct [10, 20, 30, 40, 50] 2).2 (by decide)⟩

/-! ## Source Reader filter: `filter_messages` (worker/jobs/parser.py) -/

/-- `filter_messages(messages)`: keeps messages with
`len(msg.get("text", "")) >= 50` and falsy `msg.get("is_bot", False)`. -/
def filter_messages (messages : List Msg) : List Msg :=
  messages.filter (fun msg =>
    decide (50 ≤ (msg.text.getD "").length) && !(msg.is_bot.getD false))

/-- The filtering criterion as the spec words it: text length at least 50
and the automated-sender flag false. -/
def specKeeps (msg : Msg) : Prop :=
  50 ≤ (msg.text.getD "").length ∧ msg.is_bot.getD false = false

instance (msg : Msg) : Decidable (specKeeps msg) := by
  unfold specKeeps
  infer_instance

/-- C6: the filtered output is exactly the sublist of messages whose text
has length at least 50 and whose automated flag is false: every qualifying
message is kept with order preserved and every other message is dropped. -/
theorem filter_messages_correct (messages : List Msg) :
    filter_messages messages = messages.filter (fun m => decide (specKeeps m))
    ∧ (filter_messages messages).Sublist messages
    ∧ (∀ m, m ∈ filter_messages messages ↔ m ∈ messages ∧ specKeeps m) := by
  have heq : filter_messages messages
      = messages.filter (fun m => decide (specKeeps m)) := by
    apply List.filter_congr
    intro m _
    simp [specKeeps, Bool.not_eq_true']
  refine ⟨heq, ?_, ?_⟩
  · exact List.filter_sublist messages
  · intro m
    rw [heq]
    simp [List.mem_filter]

/-! ## Extraction reply parsing: `parse_gemini_response` (worker/jobs/analyzer.py)

Python string semantics are modelled on `List Char`: `str.strip` drops
whitespace from both ends, `text[7:]` is `List.drop 7`, `text[:-3]` is
`List.take (length - 3)`. The backtick character is written `Char.ofNat 96`.
-/

/-- The backtick character. -/
def bq : Char := Char.ofNat 96

/-- The newline character. -/
def nlc : Char := Char.ofNat 10

/-- The three-backtick code-fence delimiter. -/
def fence : List Char := [bq, bq, bq]

/-- The code-fence delimiter with the `json` language tag (7 characters). -/
def fenceJson : List Char := fence ++ ['j', 's', 'o', 'n']

/-- Whitespace as `str.strip` sees it (space, tab, newline, carriage
return, vertical tab, form feed). -/
def pyIsSpace (c : Char) : Bool :=
  c == ' ' || c == Char.ofNat 9 || c == nlc || c == Char.ofNat 13
    || c == Char.ofNat 11 || c == Char.ofNat 12

/-- Leading-whitespace removal. -/
def lstrip (l : List Char) : List Char := l.dropWhile pyIsSpace

/-- Trailing-whitespace removal. -/
def rstrip (l : List Char) : List Char := (l.reverse.dropWhile pyIsSpace).reverse

/-- `str.strip()`. -/
def pyStrip (l : List Char) : List Char := rstrip (lstrip l)

/-- `str.startswith`. -/
def pyStartsWith (l p : List Char) : Bool := p.isPrefixOf l

/-- `str.endswith`. -/
def pyEndsWith (l p : List Char) : Bool := p.isSuffixOf l

/-- The shape of a decoded `json.loads` value as `parse_gemini_response`
distinguishes it: a JSON array of record dicts, or anything else. -/
inductive PyJson where
  | arr : List RD → PyJson
  | nonArr : PyJson

/-- The fence-stripping pipeline of `parse_gemini_response`: outer strip,
removal of a leading ```` ```json ```` (7 chars) or ```` ``` ```` (3 chars),
removal of a trailing ```` ``` ````, inner strip. -/
def normalize_response (response : List Char) : List Char :=
  let text1 := pyStrip response
  let text2 :=
    if pyStartsWith text1 fenceJson then text1.drop 7
    else if pyStartsWith text1 fence then text1.drop 3
    else text1
  let text3 :=
    if pyEndsWith text2 fence then text2.take (text2.length - 3) else text2
  pyStrip text3

/-- `parse_gemini_response(response_text)`: strips fences, runs `json.loads`
(the `decode` parameter; `none` models a raised `JSONDecodeError`), and
returns `[]` for a decoded value that is not a list. -/
def parse_gemini_response (decode : List Char → Option PyJson)
    (response : List Char) : Option (List RD) :=
  match decode (normalize_response response) with
  | none => none
  | some (.arr rs) => some rs
  | some .nonArr => some []

/-- A reply wrapped in ```` ```json ```` fences on their own lines. -/
def wrapJson (s : List Char) : List Char :=
  fenceJson ++ [nlc] ++ s ++ [nlc] ++ fence

/-- A reply wrapped in plain ```` ``` ```` fences on their own lines. -/
def wrapPlain (s : List Char) : List Char :=
  fence ++ [nlc] ++ s ++ [nlc] ++ fence

theorem isPrefixOf_append_self (p l : List Char) :
    p.isPrefixOf (p ++ l) = true := by
  induction p with
  | nil => simp [List.isPrefixOf]
  | cons a as ih => simp [List.isPrefixOf, ih]

theorem isPrefixOf_of_append (p q l : List Char)
    (h : (p ++ q).isPrefixOf l = true) : p.isPrefixOf l = true := by
  induction p generalizing l with
  | nil => simp [List.isPrefixOf]
  | cons a as ih =>
    cases l with
    | nil => simp [List.isPrefixOf] at h
    | cons b bs =>
      simp [List.isPrefixOf] at h ⊢
      refine ⟨h.1, ?_⟩
      obtain ⟨t, ht⟩ := h.2
      exact ⟨q ++ t, by rw [← List.append_assoc]; exact ht⟩

theorem lstrip_cons_not (c : Char) (l : List Char) (h : pyIsSpace c = false) :
    lstrip (c :: l) = c :: l := by
  simp [lstrip, List.dropWhile_cons, h]

theorem lstrip_cons_space (c : Char) (l : List Char) (h : pyIsSpace c = true) :
    lstrip (c :: l) = lstrip l := by
  simp [lstrip, List.dropWhile_cons, h]

theorem rstrip_append_not (l : List Char) (c : Char) (h : pyIsSpace c = false) :
    rstrip (l ++ [c]) = l ++ [c] := by
  simp [rstrip, List.dropWhile_cons, h]

theorem rstrip_append_space (l : List Char) (c : Char) (h : pyIsSpace c = true) :
    rstrip (l ++ [c]) = rstrip l := by
  simp [rstrip, List.dropWhile_cons, h]

theorem pyStrip_cons_space (c : Char) (l : List Char) (h : pyIsSpace c = true) :
    pyStrip (c :: l) = pyStrip l := by
  simp [pyStrip, lstrip_cons_space c l h]

theorem dropWhile_append_single (p : Char → Bool) (l : List Char) (c : Char) :
    List.dropWhile p (l ++ [c]) =
      if List.dropWhile p l = [] then List.dropWhile p [c]
      else List.dropWhile p l ++ [c] := by
  induction l with
  | nil => simp
  | cons a as ih =>
    by_cases ha : p a
    · simp [List.dropWhile_cons, ha, ih]
    · simp [List.dropWhile_cons, ha]

theorem pyStrip_append_space (l : List Char) (c : Char) (h : pyIsSpace c = true) :
    pyStrip (l ++ [c]) = pyStrip l := by
  unfold pyStrip lstrip
  rw [dropWhile_append_single]
  by_cases h0 : List.dropWhile pyIsSpace l = []
  · rw [if_pos h0, h0]
    simp [List.dropWhile_cons, h, rstrip]
  · rw [if_neg h0]
    exact rstrip_append_space _ c h

theorem pyStrip_wrapJson (s : List Char) : pyStrip (wrapJson s) = wrapJson s := by
  unfold pyStrip
  have h1 : lstrip (wrapJson s) = wrapJson s := by
    rw [show wrapJson s
        = bq :: (bq :: bq :: 'j' :: 's' :: 'o' :: 'n' :: nlc :: (s ++ nlc :: fence))
      from by simp [wrapJson, fenceJson, fence]]
    exact lstrip_cons_not _ _ (by decide)
  rw [h1]
  rw [show wrapJson s = (fenceJson ++ nlc :: s ++ [nlc, bq, bq]) ++ [bq]
    from by simp [wrapJson, fenceJson, fence]]
  exact rstrip_append_not _ _ (by decide)

theorem pyStrip_wrapPlain (s : List Char) : pyStrip (wrapPlain s) = wrapPlain s := by
  unfold pyStrip
  have h1 : lstrip (wrapPlain s) = wrapPlain s := by
    rw [show wrapPlain s = bq :: (bq :: bq :: nlc :: (s ++ nlc :: fence))
      from by simp [wrapPlain, fence]]
    exact lstrip_cons_not _ _ (by decide)
  rw [h1]
  rw [show wrapPlain s = (fence ++ nlc :: s ++ [nlc, bq, bq]) ++ [bq]
    from by simp [wrapPlain, fence]]
  exact rstrip_append_not _ _ (by decide)

theorem pyEndsWith_append_fence (l : List Char) :
    pyEndsWith (l ++ fence) fence = true := by
  have h : (l ++ fence).reverse = fence.reverse ++ l.reverse :=
    List.reverse_append l fence
  unfold pyEndsWith List.isSuffixOf
  rw [h]
  exact isPrefixOf_append_self _ _

theorem pyStrip_infix (s : List Char) (hs : pyStrip s = s) :
    pyStrip (nlc :: (s ++ [nlc])) = s := by
  rw [pyStrip_cons_space _ _ (by decide), pyStrip_append_space _ _ (by decide), hs]

theorem normalize_wrapJson (s : List Char) (hs : pyStrip s = s) :
    normalize_response (wrapJson s) = s := by
  have h1 : pyStrip (wrapJson s) = wrapJson s := pyStrip_wrapJson s
  have h2 : pyStartsWith (wrapJson s) fenceJson = true := by
    unfold pyStartsWith
    rw [show wrapJson s = fenceJson ++ (nlc :: (s ++ [nlc]) ++ fence)
      from by simp [wrapJson]]
    exact isPrefixOf_append_self _ _
  have h3 : (wrapJson s).drop 7 = (nlc :: (s ++ [nlc])) ++ fence := by
    rw [show wrapJson s = fenceJson ++ ((nlc :: (s ++ [nlc])) ++ fence)
      from by simp [wrapJson]]
    rw [show (7 : Nat) = fenceJson.length from rfl]
    exact List.drop_left _ _
  have h4 : pyEndsWith ((nlc :: (s ++ [nlc])) ++ fence) fence = true :=
    pyEndsWith_append_fence _
  have h5 : ((nlc :: (s ++ [nlc])) ++ fence).take
      (((nlc :: (s ++ [nlc])) ++ fence).length - 3) = nlc :: (s ++ [nlc]) := by
    rw [show ((nlc :: (s ++ [nlc])) ++ fence).length - 3
        = (nlc :: (s ++ [nlc])).length from by simp [fence]]
    exact List.take_left _ _
  unfold normalize_response
  simp only [h1, h2, if_true, h3, h4, h5]
  exact pyStrip_infix s hs

theorem normalize_wrapPlain (s : List Char) (hs : pyStrip s = s) :
    normalize_response (wrapPlain s) = s := by
  have h1 : pyStrip (wrapPlain s) = wrapPlain s := pyStrip_wrapPlain s
  have h2 : pyStartsWith (wrapPlain s) fenceJson = false := by
    unfold pyStartsWith
    rw [show wrapPlain s = bq :: bq :: bq :: nlc :: (s ++ nlc :: fence)
      from by simp [wrapPlain, fence]]
    have hj : (('j' : Char) == nlc) = false := by decide
    have hb : (bq == bq) = true := by decide
    simp only [fenceJson, fence, List.cons_append, List.nil_append,
      List.isPrefixOf, hj, hb, Bool.true_and, Bool.false_and]
  have h3 : pyStartsWith (wrapPlain s) fence = true := by
    unfold pyStartsWith
    rw [show wrapPlain s = fence ++ (nlc :: (s ++ [nlc]) ++ fence)
      from by simp [wrapPlain]]
    exact isPrefixOf_append_self _ _
  have h4 : (wrapPlain s).drop 3 = (nlc :: (s ++ [nlc])) ++ fence := by
    rw [show wrapPlain s = fence ++ ((nlc :: (s ++ [nlc])) ++ fence)
      from by simp [wrapPlain]]
    rw [show (3 : Nat) = fence.length from rfl]
    exact List.drop_left _ _
  have h5 : pyEndsWith ((nlc :: (s ++ [nlc])) ++ fence) fence = true :=
    pyEndsWith_append_fence _
  have h6 : ((nlc :: (s ++ [nlc])) ++ fence).take
      (((nlc :: (s ++ [nlc])) ++ fence).length - 3) = nlc :: (s ++ [nlc]) := by
    rw [show ((nlc :: (s ++ [nlc])) ++ fence).length - 3
        = (nlc :: (s ++ [nlc])).length from by simp [fence]]
    exact List.take_left _ _
  unfold normalize_response
  simp only [h1, h2, h3, h4, h5, h6, Bool.false_eq_true, if_false, if_true]
  exact pyStrip_infix s hs

theorem normalize_bare (s : List Char) (hs : pyStrip s = s)
    (hp : pyStartsWith s fence = false) (he : pyEndsWith s fence = false) :
    normalize_response s = s := by
  have h2 : pyStartsWith s fenceJson = false := by
    cases h : pyStartsWith s fenceJson
    · rfl
    · exfalso
      have := isPrefixOf_of_append fence ['j', 's', 'o', 'n'] s h
      rw [pyStartsWith] at hp
      rw [hp] at this
      exact Bool.false_ne_true this
  unfold normalize_response
  simp only [hs, h2, hp, he, Bool.false_eq_true, if_false]

/-- C4: wrapping a whitespace-trimmed, non-fence-delimited reply in
```` ```json ```` fences or plain ```` ``` ```` fences does not change the
parse: all three forms yield the identical structured result, for every
decoder. -/
theorem parse_gemini_response_fence_tolerant (decode : List Char → Option PyJson)
    (s : List Char) (hs : pyStrip s = s)
    (hp : pyStartsWith s fence = false) (he : pyEndsWith s fence = false) :
    parse_gemini_response decode (wrapJson s) = parse_gemini_response decode s
    ∧ parse_gemini_response decode (wrapPlain s)
        = parse_gemini_response decode s := by
  unfold parse_gemini_response
  rw [normalize_wrapJson s hs, normalize_wrapPlain s hs, normalize_bare s hs hp he]
  exact ⟨rfl, rfl⟩

/-- Witness for C4 at the concrete reply `[]`, with a decoder recognising
exactly that array. -/
theorem parse_gemini_response_fence_tolerant_witness :
    (pyStrip ['[', ']'] = ['[', ']']
      ∧ pyStartsWith ['[', ']'] fence = false
      ∧ pyEndsWith ['[', ']'] fence = false)
    ∧ (parse_gemini_response
          (fun l => if l = ['[', ']'] then some (PyJson.arr []) else none)
          (wrapJson ['[', ']'])
        = parse_gemini_response
          (fun l => if l = ['[', ']'] then some (PyJson.arr []) else none)
          ['[', ']']
      ∧ parse_gemini_response
          (fun l => if l = ['[', ']'] then some (PyJson.arr []) else none)
          (wrapPlain ['[', ']'])
        = parse_gemini_response
          (fun l => if l = ['[', ']'] then some (PyJson.arr []) else none)
          ['[', ']']) :=
  ⟨⟨by decide, by decide, by decide⟩,
    parse_gemini_response_fence_tolerant _ _ (by decide) (by decide) (by decide)⟩

/-! ## Metadata attacher: `attach_metadata` (worker/jobs/analyzer.py) -/

/-- One assignment into the `message_lookup` dict comprehension: a later
message with the same id overwrites an earlier one. -/
def dict_update (f : Int → Option Msg) (m : Msg) : Int → Option Msg :=
  fun i => if i = m.message_id then some m else f i

/-- The dict `{msg["message_id"]: msg for msg in messages}` as a lookup
function. -/
def message_lookup (messages : List Msg) : Int → Option Msg :=
  messages.foldl dict_update (fun _ => none)

/-- The fields `attach_metadata` copies from the matched message onto a
request dict. -/
def enrich (req : RD) (original : Msg) : RD :=
  { req with
    source_chat := some (original.chat_id.getD "")
    message_date := original.message_date
    category := some (original.category.getD "")
    message_text := some (original.text.getD "") }

/-- `attach_metadata(requests, messages)`: for each request, if
`req.get("source_message_id")` is truthy (present and nonzero) and in the
lookup, copy the metadata fields; otherwise append the request unchanged. -/
def attach_metadata (requests : List RD) (messages : List Msg) : List RD :=
  requests.map (fun req =>
    match req.source_message_id with
    | none => req
    | some msgId =>
      if msgId = 0 then req
      else
        match message_lookup messages msgId with
        | some original => enrich req original
        | none => req)

theorem message_lookup_notmem (messages : List Msg) (f : Int → Option Msg)
    (i : Int) (h : i ∉ messages.map Msg.message_id) :
    messages.foldl dict_update f i = f i := by
  induction messages generalizing f with
  | nil => rfl
  | cons m ms ih =>
    simp only [List.map_cons, List.mem_cons, not_or] at h
    rw [List.foldl_cons, ih _ h.2]
    simp [dict_update, h.1]

theorem message_lookup_fold_mem (messages : List Msg)
    (h : (messages.map Msg.message_id).Nodup) (m : Msg) (hm : m ∈ messages) :
    ∀ f, messages.foldl dict_update f m.message_id = some m := by
  induction messages generalizing m with
  | nil => cases hm
  | cons a ms ih =>
    intro f
    simp only [List.map_cons, List.nodup_cons] at h
    rw [List.foldl_cons]
    rcases List.mem_cons.mp hm with rfl | hmem
    · rw [message_lookup_notmem ms _ _ h.1]
      simp [dict_update]
    · exact ih h.2 m hmem _

theorem message_lookup_mem (messages : List Msg)
    (h : (messages.map Msg.message_id).Nodup) (m : Msg) (hm : m ∈ messages) :
    message_lookup messages m.message_id = some m :=
  message_lookup_fold_mem messages h m hm _

/-- C5 (amended): every input record survives in order; a record whose
`source_message_id` is present, nonzero and equal to the id of a batch
message gains `source_chat`, `occurred_at`, `category` and the raw text of
that message; a record whose id is absent, zero, or unmatched is passed
through unchanged. Stated for batches with distinct message ids. -/
theorem attach_metadata_correct (requests : List RD) (messages : List Msg)
    (hids : (messages.map Msg.message_id).Nodup) :
    (attach_metadata requests messages).length = requests.length
    ∧ (∀ i r m, requests.get? i = some r → m ∈ messages →
        r.source_message_id = some m.message_id → m.message_id ≠ 0 →
        (attach_metadata requests messages).get? i = some (enrich r m))
    ∧ (∀ i r, requests.get? i = some r →
        (∀ m ∈ messages, r.source_message_id ≠ some m.message_id) →
        (attach_metadata requests messages).get? i = some r)
    ∧ (∀ i r, requests.get? i = some r →
        (r.source_message_id = none ∨ r.source_message_id = some 0) →
        (attach_metadata requests messages).get? i = some r) := by
  refine ⟨by simp [attach_metadata], ?_, ?_, ?_⟩
  · intro i r m hi hm hr hz
    unfold attach_metadata
    rw [List.get?_map, hi]
    simp only [Option.map_some']
    rw [hr]
    simp only [if_neg hz]
    rw [message_lookup_mem messages hids m hm]
  · intro i r hi hnm
    unfold attach_metadata
    rw [List.get?_map, hi]
    simp only [Option.map_some']
    cases hsid : r.source_message_id with
    | none => rfl
    | some v =>
      by_cases hv : v = 0
      · simp [hv]
      · have hnotin : v ∉ messages.map Msg.message_id := by
          intro hvm
          obtain ⟨m, hm, hvid⟩ := List.mem_map.mp hvm
          exact hnm m hm (by rw [hsid, hvid])
        have hlk : message_lookup messages v = none :=
          message_lookup_notmem messages _ v hnotin
        simp [hv, hlk]
  · intro i r hi hor
    unfold attach_metadata
    rw [List.get?_map, hi]
    simp only [Option.map_some']
    rcases hor with h | h <;> simp [h]

/-- The counterexample message: `message_id = 0` is a legal dict value but
falsy in Python. -/
def cexMsg : Msg :=
  { message_id := 0, text := some "older job post", message_date := some 3,
    chat_id := some "somechat", category := some "web", is_bot := some false }

/-- The counterexample record claiming to come from message 0. -/
def cexReq : RD :=
  { title := some "T", description := none, budget := none, skills := none,
    contact := none, urgency := none, source_message_id := some 0,
    source_chat := none, message_date := none, category := none,
    message_text := none }

/-- C5 counterexample: a record whose `source_message_id` (0) matches a
message id in the batch is nevertheless passed through without gaining any
field, because `if msg_id` treats 0 as falsy. -/
theorem attach_metadata_zero_id_counterexample :
    cexReq.source_message_id = some cexMsg.message_id
    ∧ attach_metadata [cexReq] [cexMsg] = [cexReq]
    ∧ attach_metadata [cexReq] [cexMsg] ≠ [enrich cexReq cexMsg]
    ∧ cexReq.source_chat = none := by
  decide

/-- Witness for C5 (amended) at a concrete matched pair. -/
theorem attach_metadata_correct_witness :
    ((([{ message_id := 7, text := some "long job text", message_date := some 11,
          chat_id := some "chat7", category := some "dev", is_bot := some false }]
        : List Msg).map Msg.message_id).Nodup)
    ∧ (attach_metadata
        [{ title := some "T", description := none, budget := none, skills := none,
           contact := none, urgency := none, source_message_id := some 7,
           source_chat := none, message_date := none, category := none,
           message_text := none }]
        [{ message_id := 7, text := some "long job text", message_date := some 11,
           chat_id := some "chat7", category := some "dev", is_bot := some false }]).get? 0
      = some (enrich
        { title := some "T", description := none, budget := none, skills := none,
          contact := none, urgency := none, source_message_id := some 7,
          source_chat := none, message_date := none, category := none,
          message_text := none }
        { message_id := 7, text := some "long job text", message_date := some 11,
          chat_id := some "chat7", category := some "dev", is_bot := some false }) :=
  ⟨by decide,
    (attach_metadata_correct _ _ (by decide)).2.1 0 _ _ rfl (by simp) rfl (by decide)⟩

/-! ## Extraction client: `GeminiAnalyzer.analyze_batch` (worker/jobs/analyzer.py) -/

/-- `analyze_batch(messages)` after the external call: `api` is the model
reply (`.error` = the call raised, caught by the broad `except`;
`.ok txt` = `response.text`). An empty reply, a reply that fails JSON
decoding (`JSONDecodeError` caught) and any other exception all yield `[]`;
otherwise the parsed records get metadata attached. -/
def analyze_batch (decode : List Char → Option PyJson) (messages : List Msg)
    (api : Except String (List Char)) : List RD :=
  if messages.isEmpty then []
  else
    match api with
    | .error _ => []
    | .ok txt =>
      if txt.isEmpty then []
      else
        match parse_gemini_response decode txt with
        | none => []
        | some reqs => attach_metadata reqs messages

/-- C7: a reply that fails to decode as JSON, or decodes to a non-array,
makes the batch contribute zero records instead of raising. -/
theorem analyze_batch_recovers (decode : List Char → Option PyJson)
    (messages : List Msg) (txt : List Char)
    (h : decode (normalize_response txt) = none
      ∨ decode (normalize_response txt) = some PyJson.nonArr) :
    analyze_batch decode messages (.ok txt) = [] := by
  unfold analyze_batch
  by_cases hm : messages.isEmpty = true
  · rw [if_pos hm]
  · rw [if_neg hm]
    show (if txt.isEmpty = true then []
      else
        match parse_gemini_response decode txt with
        | none => []
        | some reqs => attach_metadata reqs messages) = []
    by_cases ht : txt.isEmpty = true
    · rw [if_pos ht]
    · rw [if_neg ht]
      unfold parse_gemini_response
      rcases h with h | h
      · rw [h]
      · rw [h]
        simp [attach_metadata]

/-- Witness for C7: a decoder that always fails, on a nonempty batch and
reply. -/
theorem analyze_batch_recovers_witness :
    ((fun _ => (none : Option PyJson)) (normalize_response ['o', 'k']) = none
      ∨ (fun _ => (none : Option PyJson)) (normalize_response ['o', 'k'])
          = some PyJson.nonArr)
    ∧ analyze_batch (fun _ => none) [cexMsg] (.ok ['o', 'k']) = [] :=
  ⟨Or.inl rfl, analyze_batch_recovers _ _ _ (Or.inl rfl)⟩

/-! ## Persistence service: `RequestService` (services/request_service.py)

`hash` is `compute_hash` (SHA-256 of the UTF-8 text, an external library
call); the store is the `freelance_requests` table in insertion order.
-/

/-- The duplicate check
`select(FreelanceRequest.id).where(message_text_hash == h)` returning a
row. -/
def hashExists (h : String) (store : List FreelanceRequest) : Bool :=
  store.any (fun r => decide (r.message_text_hash = h))

/-- The number of stored rows carrying a given content hash. -/
def countHash (h : String) (store : List FreelanceRequest) : Nat :=
  (store.filter (fun r => decide (r.message_text_hash = h))).length

/-- The `FreelanceRequest(...)` constructor call inside `save_requests`,
with the `.get` defaults of the source. -/
def mk_request (hash : String → String) (now : Int) (rd : RD) : FreelanceRequest :=
  { category := rd.category.getD ""
    title := rd.title.getD ""
    description := rd.description.getD ""
    budget := rd.budget.getD "Не указан"
    skills := rd.skills.getD []
    contact := rd.contact
    urgency := rd.urgency.getD "normal"
    source_chat := rd.source_chat.getD ""
    source_message_id := rd.source_message_id.getD 0
    message_date := rd.message_date.getD now
    message_text_hash := hash (rd.message_text.getD "")
    is_active := true }

/-- The `for req_data in requests` loop of `save_requests`. Returns the
store after the loop, the input dicts after their `pop("message_text", "")`
mutation, and `saved_count`. The duplicate check sees rows added earlier in
the same call (session autoflush). -/
def save_loop (hash : String → String) (now : Int) :
    List RD → List FreelanceRequest → List FreelanceRequest × List RD × Nat
  | [], store => (store, [], 0)
  | rd :: rest, store =>
    let text_hash := hash (rd.message_text.getD "")
    let mutated : RD := { rd with message_text := none }
    if hashExists text_hash store then
      let r := save_loop hash now rest store
      (r.1, mutated :: r.2.1, r.2.2)
    else
      let r := save_loop hash now rest (store ++ [mk_request hash now rd])
      (r.1, mutated :: r.2.1, r.2.2 + 1)

/-- `save_requests(requests)`: early return 0 on an empty list, otherwise
the dedup-insert loop. -/
def save_requests (hash : String → String) (now : Int)
    (store : List FreelanceRequest) (requests : List RD) :
    List FreelanceRequest × List RD × Nat :=
  if requests.isEmpty then (store, requests, 0)
  else save_loop hash now requests store

/-- `cleanup_old_requests(days)`: deletes rows with
`message_date < now - days` and returns `rowcount`. -/
def cleanup_old_requests (now days : Int) (store : List FreelanceRequest) :
    List FreelanceRequest × Nat :=
  ((store.filter (fun r => !(decide (r.message_date < now - days)))),
    (store.filter (fun r => decide (r.message_date < now - days))).length)

theorem countHash_append_single (h : String) (store : List FreelanceRequest)
    (r : FreelanceRequest) :
    countHash h (store ++ [r])
      = countHash h store + (if r.message_text_hash = h then 1 else 0) := by
  unfold countHash
  rw [List.filter_append]
  by_cases hr : r.message_text_hash = h <;> simp [hr]

theorem hashExists_false_iff (h : String) (store : List FreelanceRequest) :
    hashExists h store = false ↔ countHash h store = 0 := by
  unfold hashExists countHash
  rw [List.length_eq_zero, List.filter_eq_nil_iff]
  rw [List.any_eq_false]

theorem countHash_pos_of_exists (h : String) (store : List FreelanceRequest)
    (he : hashExists h store = true) : 1 ≤ countHash h store := by
  by_contra hc
  have h0 : countHash h store = 0 := by omega
  rw [← hashExists_false_iff] at h0
  rw [he] at h0
  exact Bool.noConfusion h0

/-- The store after the loop is the store before plus the inserted rows,
and `saved_count` counts exactly the insertions. -/
theorem save_loop_store (hash : String → String) (now : Int) :
    ∀ (reqs : List RD) (store : List FreelanceRequest),
      ∃ ins : List FreelanceRequest,
        (save_loop hash now reqs store).1 = store ++ ins
        ∧ ins.length = (save_loop hash now reqs store).2.2 := by
  intro reqs
  induction reqs with
  | nil => intro store; exact ⟨[], by simp [save_loop]⟩
  | cons rd rest ih =>
    intro store
    by_cases hd : hashExists (hash (rd.message_text.getD "")) store = true
    · obtain ⟨ins, h1, h2⟩ := ih store
      exact ⟨ins, by simp [save_loop, hd, h1], by simp [save_loop, hd, h2]⟩
    · rw [Bool.not_eq_true] at hd
      obtain ⟨ins, h1, h2⟩ := ih (store ++ [mk_request hash now rd])
      refine ⟨mk_request hash now rd :: ins, ?_, ?_⟩
      · simp [save_loop, hd, h1]
      · simp [save_loop, hd, ← h2]

/-- A hash present in the store stays present through the loop. -/
theorem save_loop_exists_mono (hash : String → String) (now : Int)
    (reqs : List RD) (store : List FreelanceRequest) (h : String)
    (he : hashExists h store = true) :
    hashExists h (save_loop hash now reqs store).1 = true := by
  obtain ⟨ins, h1, _⟩ := save_loop_store hash now reqs store
  rw [h1]
  unfold hashExists at he ⊢
  rw [List.any_append, he]
  rfl

/-- After the loop, the hash of every processed record is in the store. -/
theorem save_loop_covers (hash : String → String) (now : Int) :
    ∀ (reqs : List RD) (store : List FreelanceRequest) (rd : RD),
      rd ∈ reqs →
      hashExists (hash (rd.message_text.getD ""))
        (save_loop hash now reqs store).1 = true := by
  intro reqs
  induction reqs with
  | nil => intro store rd h; cases h
  | cons a rest ih =>
    intro store rd hmem
    by_cases hd : hashExists (hash (a.message_text.getD "")) store = true
    · rcases List.mem_cons.mp hmem with rfl | hmem2
      · simp only [save_loop, hd, if_true]
        exact save_loop_exists_mono hash now rest store _ hd
      · simp only [save_loop, hd, if_true]
        exact ih store rd hmem2
    · rw [Bool.not_eq_true] at hd
      have hnew : hashExists (hash (a.message_text.getD ""))
          (store ++ [mk_request hash now a]) = true := by
        unfold hashExists
        rw [List.any_append]
        simp [mk_request]
      rcases List.mem_cons.mp hmem with rfl | hmem2
      · simp only [save_loop, hd, Bool.false_eq_true, if_false]
        exact save_loop_exists_mono hash now rest _ _ hnew
      · simp only [save_loop, hd, Bool.false_eq_true, if_false]
        exact ih _ rd hmem2

/-- A call whose every record hash is already stored changes nothing. -/
theorem save_loop_noop (hash : String → String) (now : Int) :
    ∀ (reqs : List RD) (store : List FreelanceRequest),
      (∀ rd ∈ reqs, hashExists (hash (rd.message_text.getD "")) store = true) →
      (save_loop hash now reqs store).1 = store
      ∧ (save_loop hash now reqs store).2.2 = 0 := by
  intro reqs
  induction reqs with
  | nil => intro store _; exact ⟨rfl, rfl⟩
  | cons a rest ih =>
    intro store hall
    have ha : hashExists (hash (a.message_text.getD "")) store = true :=
      hall a (List.mem_cons_self a rest)
    have hrest := ih store (fun rd h => hall rd (List.mem_cons_of_mem a h))
    constructor
    · simp [save_loop, ha, hrest.1]
    · simp [save_loop, ha, hrest.2]

/-- The loop never brings the count of any hash above one. -/
theorem save_loop_countHash (hash : String → String) (now : Int) :
    ∀ (reqs : List RD) (store : List FreelanceRequest) (h : String),
      countHash h store ≤ 1 →
      countHash h (save_loop hash now reqs store).1 ≤ 1 := by
  intro reqs
  induction reqs with
  | nil => intro store h hle; exact hle
  | cons a rest ih =>
    intro store h hle
    by_cases hd : hashExists (hash (a.message_text.getD "")) store = true
    · simp only [save_loop, hd, if_true]
      exact ih store h hle
    · rw [Bool.not_eq_true] at hd
      simp only [save_loop, hd, Bool.false_eq_true, if_false]
      apply ih
      rw [countHash_append_single]
      by_cases hh : (mk_request hash now a).message_text_hash = h
      · have h0 : countHash h store = 0 := by
          rw [← hashExists_false_iff]
          rw [← hh]
          exact hd
        rw [if_pos hh, h0]
      · rw [if_neg hh]
        omega

theorem save_requests_count_one (hash : String → String) (now : Int)
    (store : List FreelanceRequest) (reqs : List RD) (h : String)
    (hle : countHash h store ≤ 1)
    (hmem : ∃ rd ∈ reqs, hash (rd.message_text.getD "") = h) :
    countHash h (save_requests hash now store reqs).1 = 1 := by
  cases reqs with
  | nil =>
    obtain ⟨rd, hm, _⟩ := hmem
    cases hm
  | cons a rest =>
    obtain ⟨rd, hm, hh⟩ := hmem
    subst hh
    unfold save_requests
    simp only [List.isEmpty_cons, Bool.false_eq_true, if_false]
    have h1 := save_loop_covers hash now (a :: rest) store rd hm
    have h2 := countHash_pos_of_exists _ _ h1
    have h3 := save_loop_countHash hash now (a :: rest) store _ hle
    omega

theorem save_requests_countHash (hash : String → String) (now : Int)
    (store : List FreelanceRequest) (reqs : List RD) (h : String)
    (hle : countHash h store ≤ 1) :
    countHash h (save_requests hash now store reqs).1 ≤ 1 := by
  cases reqs with
  | nil => exact hle
  | cons a rest =>
    unfold save_requests
    simp only [List.isEmpty_cons, Bool.false_eq_true, if_false]
    exact save_loop_countHash hash now (a :: rest) store h hle

/-- C2: `save_requests` appends exactly `saved_count` new rows and touches
no existing row; every processed record's content hash is stored
afterwards; a call whose hashes are all already stored is a no-op;
repeating a call inserts nothing further; and two records with identical
raw text — in one call or across two calls — leave exactly one stored row
with that hash (from any store carrying at most one such row). -/
theorem save_requests_dedup (hash : String → String) (now : Int)
    (store : List FreelanceRequest) (requests : List RD) :
    (∃ ins : List FreelanceRequest,
        (save_requests hash now store requests).1 = store ++ ins
        ∧ ins.length = (save_requests hash now store requests).2.2)
    ∧ (∀ rd ∈ requests, hashExists (hash (rd.message_text.getD ""))
        (save_requests hash now store requests).1 = true)
    ∧ ((∀ rd ∈ requests, hashExists (hash (rd.message_text.getD "")) store = true) →
        (save_requests hash now store requests).1 = store
        ∧ (save_requests hash now store requests).2.2 = 0)
    ∧ ((save_requests hash now
          (save_requests hash now store requests).1 requests).1
        = (save_requests hash now store requests).1
      ∧ (save_requests hash now
          (save_requests hash now store requests).1 requests).2.2 = 0)
    ∧ (∀ r1 r2 : RD, r1.message_text.getD "" = r2.message_text.getD "" →
        countHash (hash (r1.message_text.getD "")) store ≤ 1 →
        countHash (hash (r1.message_text.getD ""))
          (save_requests hash now store [r1, r2]).1 = 1
        ∧ countHash (hash (r1.message_text.getD ""))
          (save_requests hash now
            (save_requests hash now store [r1]).1 [r2]).1 = 1) := by
  have hcovers : ∀ rd ∈ requests, hashExists (hash (rd.message_text.getD ""))
      (save_requests hash now store requests).1 = true := by
    cases requests with
    | nil => intro rd h; cases h
    | cons a rest =>
      unfold save_requests
      simp only [List.isEmpty_cons, Bool.false_eq_true, if_false]
      exact save_loop_covers hash now (a :: rest) store
  have hnoop : ∀ (st : List FreelanceRequest),
      (∀ rd ∈ requests, hashExists (hash (rd.message_text.getD "")) st = true) →
      (save_requests hash now st requests).1 = st
      ∧ (save_requests hash now st requests).2.2 = 0 := by
    intro st hall
    cases requests with
    | nil => exact ⟨rfl, rfl⟩
    | cons a rest =>
      unfold save_requests
      simp only [List.isEmpty_cons, Bool.false_eq_true, if_false]
      exact save_loop_noop hash now (a :: rest) st hall
  refine ⟨?_, hcovers, hnoop store, hnoop _ hcovers, ?_⟩
  · cases requests with
    | nil => exact ⟨[], by simp [save_requests], rfl⟩
    | cons a rest =>
      unfold save_requests
      simp only [List.isEmpty_cons, Bool.false_eq_true, if_false]
      exact save_loop_store hash now (a :: rest) store
  · intro r1 r2 heq hle
    constructor
    · exact save_requests_count_one hash now store [r1, r2] _ hle
        ⟨r1, by simp, rfl⟩
    · have h1 : countHash (hash (r1.message_text.getD ""))
          (save_requests hash now store [r1]).1 = 1 :=
        save_requests_count_one hash now store [r1] _ hle ⟨r1, by simp, rfl⟩
      exact save_requests_count_one hash now _ [r2] _ (by omega)
        ⟨r2, by simp, by rw [← heq]⟩

/-- Witness record for the dedup claims: a full extracted record. -/
def wRd1 : RD :=
  { title := some "Site wanted", description := some "need a site",
    budget := some "100", skills := some ["python"], contact := some "@a",
    urgency := some "normal", source_message_id := some 1,
    source_chat := some "c", message_date := some 10, category := some "dev",
    message_text := some "duplicate raw text" }

/-- Witness record sharing `wRd1`'s raw text with different other fields. -/
def wRd2 : RD :=
  { title := some "Other title", description := some "other",
    budget := some "200", skills := some ["js"], contact := some "@b",
    urgency := some "urgent", source_message_id := some 2,
    source_chat := some "d", message_date := some 11, category := some "web",
    message_text := some "duplicate raw text" }

/-- Witness for C2: saving the two same-text records into an empty store
leaves exactly one row with their hash. -/
theorem save_requests_dedup_witness :
    (wRd1.message_text.getD "" = wRd2.message_text.getD ""
      ∧ countHash ((fun s : String => s) (wRd1.message_text.getD "")) [] ≤ 1)
    ∧ countHash ((fun s : String => s) (wRd1.message_text.getD ""))
        (save_requests (fun s => s) 0 [] [wRd1, wRd2]).1 = 1 :=
  ⟨⟨by decide, by decide⟩,
    ((save_requests_dedup (fun s => s) 0 [] []).2.2.2.2 wRd1 wRd2
      (by decide) (by decide)).1⟩

theorem save_loop_mutated (hash : String → String) (now : Int) :
    ∀ (reqs : List RD) (store : List FreelanceRequest),
      (save_loop hash now reqs store).2.1
        = reqs.map (fun r => { r with message_text := none }) := by
  intro reqs
  induction reqs with
  | nil => intro store; rfl
  | cons a rest ih =>
    intro store
    by_cases hd : hashExists (hash (a.message_text.getD "")) store = true
    · simp [save_loop, hd, ih]
    · rw [Bool.not_eq_true] at hd
      simp [save_loop, hd, ih]

/-- C10: `save_requests` pops `message_text` from every input dict — after
the call each input record has lost exactly that key, with every other
field unchanged. -/
theorem save_requests_pops_input (hash : String → String) (now : Int)
    (store : List FreelanceRequest) (requests : List RD) :
    (save_requests hash now store requests).2.1
      = requests.map (fun r => { r with message_text := none }) := by
  cases requests with
  | nil => rfl
  | cons a rest =>
    unfold save_requests
    simp only [List.isEmpty_cons, Bool.false_eq_true, if_false]
    exact save_loop_mutated hash now (a :: rest) store

/-- A sequence of `save_requests` calls (each with its own clock value),
folded over the store. -/
def save_many (hash : String → String) (calls : List (Int × List RD))
    (store : List FreelanceRequest) : List FreelanceRequest :=
  calls.foldl (fun st c => (save_requests hash c.1 st c.2).1) store

/-- C9: a record without raw text hashes as the empty string; hence all
such records share one hash, across any sequence of save calls at most one
row with that hash is ever stored, and once one is stored every later
no-text record is skipped as a duplicate. -/
theorem save_requests_no_text_unique (hash : String → String) :
    (∀ rd : RD, (rd.message_text = none ∨ rd.message_text = some "") →
        hash (rd.message_text.getD "") = hash "")
    ∧ (∀ (calls : List (Int × List RD)) (store : List FreelanceRequest),
        countHash (hash "") store ≤ 1 →
        countHash (hash "") (save_many hash calls store) ≤ 1)
    ∧ (∀ (now : Int) (store : List FreelanceRequest) (rd : RD),
        hashExists (hash "") store = true →
        (rd.message_text = none ∨ rd.message_text = some "") →
        (save_requests hash now store [rd]).1 = store
        ∧ (save_requests hash now store [rd]).2.2 = 0) := by
  refine ⟨?_, ?_, ?_⟩
  · intro rd hnt
    rcases hnt with h | h <;> rw [h] <;> rfl
  · intro calls
    induction calls with
    | nil => intro store hle; exact hle
    | cons c rest ih =>
      intro store hle
      unfold save_many
      rw [List.foldl_cons]
      exact ih _ (save_requests_countHash hash c.1 store c.2 _ hle)
  · intro now store rd hex hnt
    have htext : rd.message_text.getD "" = "" := by
      rcases hnt with h | h <;> rw [h] <;> rfl
    unfold save_requests
    simp only [List.isEmpty_cons, Bool.false_eq_true, if_false]
    simp [save_loop, htext, hex]

/-- Witness for C9: two successive one-record calls with a text-less
record keep the count of empty-text rows at one or below. -/
theorem save_requests_no_text_unique_witness :
    countHash ((fun s : String => s) "") [] ≤ 1
    ∧ countHash ((fun s : String => s) "")
        (save_many (fun s => s)
          [(0, [{ wRd1 with message_text := none }]),
            (1, [{ wRd2 with message_text := some "" }])] []) ≤ 1 :=
  ⟨by decide,
    (save_requests_no_text_unique (fun s => s)).2.1
      [(0, [{ wRd1 with message_text := none }]),
        (1, [{ wRd2 with message_text := some "" }])] [] (by decide)⟩

theorem cleanup_length_split (now days : Int) (store : List FreelanceRequest) :
    (store.filter (fun r => decide (r.message_date < now - days))).length
      + (store.filter (fun r => !(decide (r.message_date < now - days)))).length
      = store.length := by
  induction store with
  | nil => rfl
  | cons a t ih =>
    by_cases ha : a.message_date < now - days <;>
      simp [List.filter_cons, ha] <;> omega

/-- C3: eviction deletes exactly the rows strictly older than
`now - ttl_days`, returns the deleted count, keeps every row within the
window (relative order intact); a row dated `now - (ttl+1)` is removed and
a row dated `now - (ttl-1)` is retained. -/
theorem cleanup_old_requests_correct (now days : Int)
    (store : List FreelanceRequest) :
    (∀ r, r ∈ (cleanup_old_requests now days store).1
        ↔ r ∈ store ∧ ¬(r.message_date < now - days))
    ∧ (cleanup_old_requests now days store).1.Sublist store
    ∧ (cleanup_old_requests now days store).2
        + (cleanup_old_requests now days store).1.length = store.length
    ∧ (∀ r ∈ store, r.message_date = now - (days + 1) →
        r ∉ (cleanup_old_requests now days store).1)
    ∧ (∀ r ∈ store, r.message_date = now - (days - 1) →
        r ∈ (cleanup_old_requests now days store).1) := by
  refine ⟨?_, List.filter_sublist store, cleanup_length_split now days store, ?_, ?_⟩
  · intro r
    unfold cleanup_old_requests
    rw [List.mem_filter]
    simp
  · intro r hr hdate hmem
    unfold cleanup_old_requests at hmem
    rw [List.mem_filter] at hmem
    have hc := hmem.2
    rw [Bool.not_eq_true', decide_eq_false_iff_not] at hc
    exact hc (by omega)
  · intro r hr hdate
    unfold cleanup_old_requests
    rw [List.mem_filter]
    refine ⟨hr, ?_⟩
    rw [Bool.not_eq_true', decide_eq_false_iff_not]
    omega

/-- A stored row dated just outside a 5-day window (for `now = 100`). -/
def wOld : FreelanceRequest :=
  { category := "dev", title := "old", description := "old row",
    budget := "100", skills := [], contact := none, urgency := "normal",
    source_chat := "c", source_message_id := 1, message_date := 94,
    message_text_hash := "h1", is_active := true }

/-- A stored row dated just inside a 5-day window (for `now = 100`). -/
def wNew : FreelanceRequest :=
  { category := "dev", title := "new", description := "new row",
    budget := "100", skills := [], contact := none, urgency := "normal",
    source_chat := "c", source_message_id := 2, message_date := 96,
    message_text_hash := "h2", is_active := true }

/-- Witness for C3 at the eviction boundary: TTL 5 at time 100 removes the
row dated 94 and keeps the row dated 96. -/
theorem cleanup_old_requests_correct_witness :
    (wOld ∈ [wOld, wNew] ∧ wOld.message_date = 100 - (5 + 1)
      ∧ wNew ∈ [wOld, wNew] ∧ wNew.message_date = 100 - (5 - 1))
    ∧ wOld ∉ (cleanup_old_requests 100 5 [wOld, wNew]).1
    ∧ wNew ∈ (cleanup_old_requests 100 5 [wOld, wNew]).1 :=
  ⟨⟨by decide, by decide, by decide, by decide⟩,
    (cleanup_old_requests_correct 100 5 [wOld, wNew]).2.2.2.1 wOld
      (by decide) (by decide),
    (cleanup_old_requests_correct 100 5 [wOld, wNew]).2.2.2.2 wNew
      (by decide) (by decide)⟩

/-! ## Job orchestrator: `parse_and_analyze_job` (worker/scheduler.py)

The world carries the two durable tables. The fallible external
interactions of the `try` block — configuration loading with category sync
and client acquisition, each category's `parse_category`, each category's
`analyze_all` — enter as `Except` inputs; `.error e` models the step
raising, which the `except` handler turns into the `failed` log update
before re-raising (the job's returned `Option String`).
-/

/-- A row of the `parse_logs` table. `finished` models `finished_at` being
set. -/
structure ParseLogRec where
  id : Nat
  status : String
  chats_parsed : Nat
  messages_found : Nat
  requests_extracted : Nat
  error_message : Option String
  finished : Bool
deriving DecidableEq

/-- The durable state the job touches: the requests table, the parse-log
table, and the next autoincrement log id. -/
structure World where
  store : List FreelanceRequest
  logs : List ParseLogRec
  nextLogId : Nat
deriving DecidableEq

/-- A freshly inserted `running` log row. -/
def runningLog (i : Nat) : ParseLogRec :=
  { id := i, status := "running", chats_parsed := 0, messages_found := 0,
    requests_extracted := 0, error_message := none, finished := false }

/-- A log row after its terminal update: status, metrics, error message
and `finished_at` written. -/
def terminalLog (lg : ParseLogRec) (status : String) (c m r : Nat)
    (err : Option String) : ParseLogRec :=
  { lg with
    status := status, finished := true, chats_parsed := c,
    messages_found := m, requests_extracted := r, error_message := err }

/-- `create_parse_log()`: inserts a `running` row and returns its id. -/
def create_parse_log (w : World) : World × Nat :=
  ({ w with
      logs := w.logs ++ [runningLog w.nextLogId],
      nextLogId := w.nextLogId + 1 },
    w.nextLogId)

/-- `finish_parse_log(log_id, status, ...)`: selects the row by id and, if
found, writes the terminal status, metrics, error message and
`finished_at`. -/
def finish_parse_log (logId : Nat) (status : String)
    (chats messages requests : Nat) (err : Option String) (w : World) : World :=
  { w with logs := w.logs.map (fun l =>
      if l.id = logId then terminalLog l status chats messages requests err
      else l) }

/-- One configured category together with the outcomes of its two external
interactions during this run. -/
structure CatRun where
  slug : String
  chats : List String
  parsed : Except String (List Msg)
  analyzed : Except String (List RD)

/-- The scheduler loop that copies each matched message's text onto the
extracted record before saving (`req["message_text"] =
message_lookup.get(msg_id, {}).get("text", "")`). -/
def scheduler_attach_text (messages : List Msg) (reqs : List RD) : List RD :=
  reqs.map (fun r =>
    { r with message_text := some (match r.source_message_id with
        | some v =>
          match message_lookup messages v with
          | some m => m.text.getD ""
          | none => ""
        | none => "") })

/-- The `for slug, cat_data in categories.items()` loop of the job, then
TTL cleanup and the terminal log update. The accumulators are
`total_chats`, `total_messages`, `total_requests`. The second component of
the result is the exception the job re-raises, if any. -/
def run_categories (hash : String → String) (now ttl : Int) (logId : Nat) :
    List CatRun → Nat → Nat → Nat → World → World × Option String
  | [], tc, tm, tr, w =>
    let cleaned := cleanup_old_requests now ttl w.store
    (finish_parse_log logId "success" tc tm tr none { w with store := cleaned.1 },
      none)
  | c :: rest, tc, tm, tr, w =>
    if c.chats.isEmpty then run_categories hash now ttl logId rest tc tm tr w
    else
      match c.parsed with
      | .error e => (finish_parse_log logId "failed" tc tm tr (some e) w, some e)
      | .ok messages =>
        if messages.isEmpty then
          run_categories hash now ttl logId rest (tc + c.chats.length)
            (tm + messages.length) tr w
        else
          match c.analyzed with
          | .error e =>
            (finish_parse_log logId "failed" (tc + c.chats.length)
              (tm + messages.length) tr (some e) w, some e)
          | .ok reqs =>
            if reqs.isEmpty then
              run_categories hash now ttl logId rest (tc + c.chats.length)
                (tm + messages.length) tr w
            else
              let saved := save_requests hash now w.store
                (scheduler_attach_text messages reqs)
              run_categories hash now ttl logId rest (tc + c.chats.length)
                (tm + messages.length) (tr + saved.2.2)
                { w with store := saved.1 }

/-- `parse_and_analyze_job()`: create the running log, run the `try` block
(configuration loading may itself fail), and leave exactly one terminal
update behind. -/
def parse_and_analyze_job (hash : String → String) (now ttl : Int)
    (config : Except String (List CatRun)) (w : World) : World × Option String :=
  let created := create_parse_log w
  match config with
  | .error e =>
    (finish_parse_log created.2 "failed" 0 0 0 (some e) created.1, some e)
  | .ok cats => run_categories hash now ttl created.2 cats 0 0 0 created.1

theorem finish_map_noop (logId : Nat) (status : String) (c m r : Nat)
    (err : Option String) (base : List ParseLogRec)
    (hbase : ∀ l ∈ base, l.id ≠ logId) :
    base.map (fun l => if l.id = logId then terminalLog l status c m r err
      else l) = base := by
  induction base with
  | nil => rfl
  | cons a t ih =>
    rw [List.map_cons, if_neg (hbase a (List.mem_cons_self a t)),
      ih (fun l hl => hbase l (List.mem_cons_of_mem a hl))]

theorem finish_parse_log_logs (logId : Nat) (status : String)
    (c m r : Nat) (err : Option String) (w : World)
    (base : List ParseLogRec) (lg : ParseLogRec)
    (hw : w.logs = base ++ [lg]) (hbase : ∀ l ∈ base, l.id ≠ logId)
    (hlg : lg.id = logId) :
    (finish_parse_log logId status c m r err w).logs
      = base ++ [terminalLog lg status c m r err] := by
  unfold finish_parse_log
  simp only [hw, List.map_append]
  rw [finish_map_noop logId status c m r err base hbase]
  simp [hlg]

theorem run_categories_spec (hash : String → String) (now ttl : Int)
    (logId : Nat) (cats : List CatRun) :
    ∀ (tc tm tr : Nat) (w : World) (base : List ParseLogRec) (lg : ParseLogRec),
      w.logs = base ++ [lg] → (∀ l ∈ base, l.id ≠ logId) → lg.id = logId →
      ∃ lg' : ParseLogRec,
        (run_categories hash now ttl logId cats tc tm tr w).1.logs = base ++ [lg']
        ∧ lg'.id = logId
        ∧ lg'.finished = true
        ∧ (((run_categories hash now ttl logId cats tc tm tr w).2 = none
              ∧ lg'.status = "success" ∧ lg'.error_message = none)
          ∨ (∃ e, (run_categories hash now ttl logId cats tc tm tr w).2 = some e
              ∧ lg'.status = "failed" ∧ lg'.error_message = some e))
        ∧ ((run_categories hash now ttl logId cats tc tm tr w).2.isSome →
            ∃ ins : List FreelanceRequest,
              (run_categories hash now ttl logId cats tc tm tr w).1.store
                = w.store ++ ins
              ∧ ins.length + tr = lg'.requests_extracted) := by
  induction cats with
  | nil =>
    intro tc tm tr w base lg hw hbase hlg
    refine ⟨terminalLog lg "success" tc tm tr none,
      ?_, hlg, rfl, Or.inl ⟨rfl, rfl, rfl⟩, ?_⟩
    · exact finish_parse_log_logs logId "success" tc tm tr none _ base lg hw hbase hlg
    · intro hs
      simp [run_categories] at hs
  | cons c rest ih =>
    intro tc tm tr w base lg hw hbase hlg
    by_cases hch : c.chats.isEmpty = true
    · simp only [run_categories, hch, if_true]
      exact ih tc tm tr w base lg hw hbase hlg
    · rcases hp : c.parsed with e | messages
      · refine ⟨terminalLog lg "failed" tc tm tr (some e),
          ?_, hlg, rfl, ?_, ?_⟩
        · simp only [run_categories, hch, Bool.false_eq_true, if_false, hp]
          exact finish_parse_log_logs logId "failed" tc tm tr (some e) _ base lg
            hw hbase hlg
        · right
          refine ⟨e, ?_, rfl, rfl⟩
          simp only [run_categories, hch, Bool.false_eq_true, if_false, hp]
        · intro _
          refine ⟨[], ?_, by simp [terminalLog]⟩
          simp only [run_categories, hch, Bool.false_eq_true, if_false, hp]
          simp [finish_parse_log]
      · by_cases hme : messages.isEmpty = true
        · simp only [run_categories, hch, Bool.false_eq_true, if_false, hp, hme,
            if_true]
          exact ih _ _ tr w base lg hw hbase hlg
        · rcases ha : c.analyzed with e | reqs
          · refine ⟨terminalLog lg "failed" (tc + c.chats.length)
              (tm + messages.length) tr (some e),
              ?_, hlg, rfl, ?_, ?_⟩
            · simp only [run_categories, hch, Bool.false_eq_true, if_false, hp,
                hme, ha]
              exact finish_parse_log_logs logId "failed" _ _ tr (some e) _ base lg
                hw hbase hlg
            · right
              refine ⟨e, ?_, rfl, rfl⟩
              simp only [run_categories, hch, Bool.false_eq_true, if_false, hp,
                hme, ha]
            · intro _
              refine ⟨[], ?_, by simp [terminalLog]⟩
              simp only [run_categories, hch, Bool.false_eq_true, if_false, hp,
                hme, ha]
              simp [finish_parse_log]
          · by_cases hre : reqs.isEmpty = true
            · simp only [run_categories, hch, Bool.false_eq_true, if_false, hp,
                hme, ha, hre, if_true]
              exact ih _ _ tr w base lg hw hbase hlg
            · simp only [run_categories, hch, Bool.false_eq_true, if_false, hp,
                hme, ha, hre]
              obtain ⟨insS, hS1, hS2⟩ :=
                (save_requests_dedup hash now w.store
                  (scheduler_attach_text messages reqs)).1
              obtain ⟨lg', h1, h2, h3, h4, h5⟩ :=
                ih (tc + c.chats.length) (tm + messages.length)
                  (tr + (save_requests hash now w.store
                    (scheduler_attach_text messages reqs)).2.2)
                  { w with store := (save_requests hash now w.store
                    (scheduler_attach_text messages reqs)).1 }
                  base lg hw hbase hlg
              refine ⟨lg', h1, h2, h3, h4, ?_⟩
              intro hs
              obtain ⟨ins', hst, hlen⟩ := h5 hs
              refine ⟨insS ++ ins', ?_, ?_⟩
              · rw [hst]
                show (save_requests hash now w.store
                  (scheduler_attach_text messages reqs)).1 ++ ins' = _
                rw [hS1, List.append_assoc]
              · rw [List.length_append]
                omega

/-- C8: every run appends exactly one new JobLog (older logs untouched)
and gives it exactly one terminal update: `success` with no error when
every step succeeded, otherwise `failed` with the causing error captured
in the error detail; on failure the store still extends the initial store
by exactly the rows the failed run had saved — earlier categories' inserts
are not rolled back. -/
theorem parse_and_analyze_job_log_lifecycle (hash : String → String)
    (now ttl : Int) (config : Except String (List CatRun)) (w : World)
    (hfresh : ∀ l ∈ w.logs, l.id ≠ w.nextLogId) :
    ∃ lg : ParseLogRec,
      (parse_and_analyze_job hash now ttl config w).1.logs = w.logs ++ [lg]
      ∧ lg.id = w.nextLogId
      ∧ lg.finished = true
      ∧ (((parse_and_analyze_job hash now ttl config w).2 = none
            ∧ lg.status = "success" ∧ lg.error_message = none)
        ∨ (∃ e, (parse_and_analyze_job hash now ttl config w).2 = some e
            ∧ lg.status = "failed" ∧ lg.error_message = some e))
      ∧ ((parse_and_analyze_job hash now ttl config w).2.isSome →
          ∃ ins : List FreelanceRequest,
            (parse_and_analyze_job hash now ttl config w).1.store = w.store ++ ins
            ∧ ins.length = lg.requests_extracted) := by
  have hw1 : (create_parse_log w).1.logs
      = w.logs ++ [runningLog w.nextLogId] := rfl
  rcases hc : config with e | cats
  · refine ⟨terminalLog (runningLog w.nextLogId) "failed" 0 0 0 (some e),
      ?_, rfl, rfl, ?_, ?_⟩
    · simp only [parse_and_analyze_job]
      exact finish_parse_log_logs w.nextLogId "failed" 0 0 0 (some e) _
        w.logs _ hw1 hfresh rfl
    · right
      exact ⟨e, rfl, rfl, rfl⟩
    · intro _
      exact ⟨[], by simp [parse_and_analyze_job, finish_parse_log,
        create_parse_log], by simp [terminalLog]⟩
  · obtain ⟨lg, h1, h2, h3, h4, h5⟩ :=
      run_categories_spec hash now ttl w.nextLogId cats 0 0 0
        (create_parse_log w).1 w.logs _ hw1 hfresh rfl
    refine ⟨lg, h1, h2, h3, h4, ?_⟩
    intro hs
    obtain ⟨ins, hst, hlen⟩ := h5 hs
    exact ⟨ins, hst, by omega⟩

/-- The witness category: parsing succeeds, analysis raises. -/
def wCat : CatRun :=
  { slug := "dev", chats := ["c1"], parsed := .ok [cexMsg],
    analyzed := .error "boom" }

/-- The witness world: empty tables. -/
def wWorld : World := { store := [], logs := [], nextLogId := 0 }

/-- Witness for C8: a run over an empty world with one category whose
analysis step raises; the log goes to `failed` with the error captured. -/
theorem parse_and_analyze_job_log_lifecycle_witness :
    (∀ l ∈ wWorld.logs, l.id ≠ wWorld.nextLogId)
    ∧ ∃ lg : ParseLogRec,
        (parse_and_analyze_job (fun s => s) 100 30 (.ok [wCat])
            wWorld).1.logs = wWorld.logs ++ [lg]
        ∧ lg.id = wWorld.nextLogId
        ∧ lg.finished = true
        ∧ (((parse_and_analyze_job (fun s => s) 100 30 (.ok [wCat])
                wWorld).2 = none
            ∧ lg.status = "success" ∧ lg.error_message = none)
          ∨ (∃ e, (parse_and_analyze_job (fun s => s) 100 30 (.ok [wCat])
                wWorld).2 = some e
            ∧ lg.status = "failed" ∧ lg.error_message = some e))
        ∧ ((parse_and_analyze_job (fun s => s) 100 30 (.ok [wCat])
              wWorld).2.isSome →
            ∃ ins : List FreelanceRequest,
              (parse_and_analyze_job (fun s => s) 100 30 (.ok [wCat])
                  wWorld).1.store = wWorld.store ++ ins
              ∧ ins.length = lg.requests_extracted) :=
  ⟨by decide,
    parse_and_analyze_job_log_lifecycle (fun s => s) 100 30 (.ok [wCat])
      wWorld (by decide)⟩

end FreelanceBot
